import Mathlib

/-!
# chardev: the exclusive-open character device of `src/chardev/chardev.c`

A shallow embedding of the four file operations of the driver
(`device_open`, `device_release`, `device_read`, `device_write`) over an
explicit device state, followed by the properties of the open / read /
exclusion state machine.

Conventions of the embedding:

* the file-scope variables `already_open`, `msg`, the function-static
  `counter` of `device_open`, the use count of `THIS_MODULE` and whether the
  module is live (not being removed) are the fields of `DeviceState`;
* `int` arithmetic on `counter` wraps to 32 bits (the kernel is built with
  `-fno-strict-overflow`), see `wrap32`;
* `char` is `Char`, the terminator is `NUL`; `msg` is the list of the bytes
  of the array `msg[BUF_LEN + 1]`, and reading it outside its bounds (which
  is undefined in C) yields `NUL` in the model, see `msg_at`;
* user memory is a map from addresses to bytes together with the set of
  addresses `put_user` can write.
-/

namespace Chardev

/-! ## Constants -/

/-- The macro `SUCCESS` of the source: `#define SUCCESS 0`. -/
def SUCCESS : Int := 0

/-- The macro `BUF_LEN` of the source: `#define BUF_LEN 80`. -/
def BUF_LEN : Nat := 80

/-- Enumerator `CDEV_NOT_USED = 0`. -/
def CDEV_NOT_USED : Int := 0

/-- Enumerator `CDEV_EXCLUSIVE_OPEN = 1`. -/
def CDEV_EXCLUSIVE_OPEN : Int := 1

/-- Errno `EBUSY` of `asm/errno.h`. -/
def EBUSY : Int := 16

/-- Errno `EINVAL` of `asm/errno.h`. -/
def EINVAL : Int := 22

/-- Errno `EFAULT` of `asm/errno.h`. -/
def EFAULT : Int := 14

/-- The string terminator, the byte 0. -/
def NUL : Char := Char.ofNat 0

/-- Two's complement wraparound of a mathematical integer to a C `int`. -/
def wrap32 (x : Int) : Int := (x + 2147483648) % 4294967296 - 2147483648

/-! ## Device state -/

/-- The mutable state of the driver: the atomic flag `already_open`, the
static `counter` of `device_open`, the buffer `msg`, the use count of the
module (`try_module_get` / `module_put`) and the state of the module:
`module_live` is true from the load of the module until its removal begins
(state `MODULE_STATE_GOING`). No file operation changes `module_live`. -/
structure DeviceState where
  already_open : Int
  counter : Int
  msg : List Char
  refcnt : Nat
  module_live : Bool
deriving DecidableEq

/-- The state right after the module is loaded: `already_open` is
`ATOMIC_INIT(CDEV_NOT_USED)`, `counter` is 0, `msg` is a zeroed static array
of `BUF_LEN + 1` bytes, nobody holds a reference on the module, and the
module is live. -/
def module_load : DeviceState :=
  { already_open := CDEV_NOT_USED
    counter := 0
    msg := List.replicate (BUF_LEN + 1) NUL
    refcnt := 0
    module_live := true }

/-- The module-load state once the removal of the module has begun: the
kernel has put the module in state `MODULE_STATE_GOING` and `chardev_exit` has
not yet unregistered the device, so the file operations can still be
called (`chardev_fops` sets no `.owner`). -/
def module_going : DeviceState := { module_load with module_live := false }

/-- The C string held in a buffer: the bytes before the first terminator. -/
def cstr (buf : List Char) : List Char := buf.takeWhile (fun c => c != NUL)

/-- The byte `*(msg + i)`; outside the array the model reads a terminator. -/
def msg_at (msg : List Char) (i : Int) : Char :=
  if i < 0 then NUL else msg.getD i.toNat NUL

/-! ## Kernel primitives used by the driver -/

/-- The kernel primitive `atomic_cmpxchg(v, old, new)` in one atomic step:
the value read from the cell, and the value the cell holds afterwards
(`new` when the value read equals `old`, unchanged otherwise). -/
def atomic_cmpxchg (v old new : Int) : Int × Int :=
  (v, if v = old then new else v)

/-- The kernel primitive `try_module_get(THIS_MODULE)` on the use count: it
takes a reference and yields true while the module is live, and yields false
without touching the count once the removal of the module has begun. -/
def try_module_get (live : Bool) (refcnt : Nat) : Bool × Nat :=
  if live then (true, refcnt + 1) else (false, refcnt)

/-- The conversion `%d` of `sprintf`: the decimal digits of a C `int`, with a
leading minus sign for a negative value. -/
def fmt_d (v : Int) : List Char :=
  if v < 0 then '-' :: Nat.toDigits 10 v.natAbs else Nat.toDigits 10 v.toNat

/-- The text produced by the format
`"I already told you %d times Hello world!\n"` for the argument `v`. -/
def format_msg (v : Int) : List Char :=
  "I already told you ".toList ++ fmt_d v ++ " times Hello world!\n".toList

/-- The call `sprintf(buf, ...)` producing `text`: the text and its terminator
overwrite the front of the buffer, the bytes behind them are kept. -/
def sprintf (buf : List Char) (text : List Char) : List Char :=
  text ++ NUL :: buf.drop (text.length + 1)

/-- User memory as seen by `put_user`: which addresses can be written, and
the byte stored at each address. -/
structure UserMem where
  ok : Nat → Bool
  mem : Nat → Char

/-- The kernel primitive `put_user(x, ptr)`: stores `x` at `ptr` and yields 0,
 or yields `-EFAULT` and stores nothing when `ptr` cannot be written. -/
def put_user (u : UserMem) (x : Char) (ptr : Nat) : Int × UserMem :=
  if u.ok ptr then (0, { u with mem := Function.update u.mem ptr x })
  else (-EFAULT, u)

/-! ## The file operations -/

/-- The operation `device_open`: the compare-and-swap on `already_open`
decides; on success the message is formatted with the value of `counter`
before its increment (`counter++`, wrapping as an `int`) and
`try_module_get` is called. The value `try_module_get` yields is discarded,
as in the source: the open returns `SUCCESS` whether or not a reference was
taken. -/
def device_open (s : DeviceState) : Int × DeviceState :=
  let cas := atomic_cmpxchg s.already_open CDEV_NOT_USED CDEV_EXCLUSIVE_OPEN
  if cas.1 ≠ 0 then
    (-EBUSY, { s with already_open := cas.2 })
  else
    (SUCCESS,
      { already_open := cas.2
        counter := wrap32 (s.counter + 1)
        msg := sprintf s.msg (format_msg s.counter)
        refcnt := (try_module_get s.module_live s.refcnt).2
        module_live := s.module_live })

/-- The operation `device_release`: `atomic_set(&already_open, CDEV_NOT_USED)`
and `module_put`. The use count is a natural number: a `module_put` with no
reference held, which the kernel reports as a bug, leaves it at zero. -/
def device_release (s : DeviceState) : Int × DeviceState :=
  (SUCCESS, { s with already_open := CDEV_NOT_USED, refcnt := s.refcnt - 1 })

/-- The copy loop of `device_read`,
`while (length && *msg_ptr) { put_user(*(msg_ptr++), buffer++); length--; bytes_read++; }`.
The value returned by `put_user` is discarded, as in the source. The count
`bytes_read` is a natural number: it is bounded by the number of bytes of
`msg`, so the `int` of the source does not wrap. -/
def read_loop (msg : List Char) :
    Nat → Int → Nat → Nat → UserMem → Nat × UserMem
  | 0, _, _, bytes_read, u => (bytes_read, u)
  | length + 1, msg_ptr, buffer, bytes_read, u =>
    if msg_at msg msg_ptr ≠ NUL then
      read_loop msg length (msg_ptr + 1) (buffer + 1) (bytes_read + 1)
        (put_user u (msg_at msg msg_ptr) buffer).2
    else (bytes_read, u)

/-- What a call of `device_read` leaves behind: the value returned, the file
position `*offset`, the user memory and the device state. -/
structure ReadResult where
  ret : Int
  offset : Int
  user : UserMem
  dev : DeviceState

/-- The operation `device_read` on the destination address `buffer`, the
requested `length` (a `size_t`) and the file position `*offset` (a `loff_t`).
The terminator test comes first and resets the position; otherwise the copy
loop runs from `msg + *offset` and the position advances by `bytes_read`. The
loop is entered only for a position inside `msg`, so the sum does not leave
the range of `loff_t`. -/
def device_read (s : DeviceState) (u : UserMem) (buffer : Nat) (length : Nat)
    (offset : Int) : ReadResult :=
  if msg_at s.msg offset = NUL then
    { ret := 0, offset := 0, user := u, dev := s }
  else
    let r := read_loop s.msg length offset buffer 0 u
    { ret := (r.1 : Int), offset := offset + (r.1 : Int), user := r.2, dev := s }

/-- The operation `device_write`: rejected whatever the arguments; the only
effect of the source besides the return value is a log line. -/
def device_write (s : DeviceState) (_buff : List Char) (_len : Nat)
    (_off : Int) : Int × DeviceState :=
  (-EINVAL, s)

/-! ## Traces of calls -/

/-- A call of one of the four file operations with its arguments. -/
inductive Call where
  | op_open : Call
  | op_release : Call
  | op_read : UserMem → Nat → Nat → Int → Call
  | op_write : List Char → Nat → Int → Call

/-- One call on the device: the value returned and the next device state. -/
def step (s : DeviceState) : Call → Int × DeviceState
  | Call.op_open => device_open s
  | Call.op_release => device_release s
  | Call.op_read u buffer length offset =>
    let r := device_read s u buffer length offset
    (r.ret, r.dev)
  | Call.op_write buff len off => device_write s buff len off

/-- The device state after a sequence of calls. -/
def run (s : DeviceState) : List Call → DeviceState
  | [] => s
  | c :: t => run (step s c).2 t

/-- The number of `device_open` calls of a trace that return `SUCCESS`. -/
def successful_opens (s : DeviceState) : List Call → Nat
  | [] => 0
  | Call.op_open :: t =>
    (if (device_open s).1 = SUCCESS then 1 else 0) + successful_opens (device_open s).2 t
  | c :: t => successful_opens (step s c).2 t

/-- The number of sessions open after a trace, starting from `k` open
sessions: a successful `device_open` starts one, a `device_release` ends one. -/
def open_sessions (s : DeviceState) (k : Nat) : List Call → Nat
  | [] => k
  | Call.op_open :: t =>
    open_sessions (device_open s).2 (if (device_open s).1 = SUCCESS then k + 1 else k) t
  | Call.op_release :: t => open_sessions (device_release s).2 (k - 1) t
  | c :: t => open_sessions (step s c).2 k t

/-- Whether a call is a `device_release`. -/
def Call.is_release : Call → Bool
  | Call.op_release => true
  | _ => false

/-! ## A reader in user space -/

/-- A destination every byte of which can be written, initially zeroed. -/
def user_zero : UserMem := { ok := fun _ => true, mem := fun _ => NUL }

/-- The bytes found at `buffer .. buffer + n` in user memory. -/
def delivered (u : UserMem) (buffer n : Nat) : List Char :=
  (List.range n).map (fun i => u.mem (buffer + i))

/-- One pass of a reader: it calls `device_read` with the same `length` on a
fresh writable destination, continuing from the position the previous call
left, until a call returns 0. The result is the chunks delivered by the calls
before that one, and the position the last call left; `none` when `fuel`
calls did not reach a 0 return. -/
def read_pass (length : Nat) : Nat → DeviceState → Int → Option (List (List Char) × Int)
  | 0, _, _ => none
  | fuel + 1, s, offset =>
    let r := device_read s user_zero 0 length offset
    if r.ret = 0 then some ([], r.offset)
    else
      (read_pass length fuel r.dev r.offset).map
        (fun p => (delivered r.user 0 r.ret.toNat :: p.1, p.2))

/-- The trace of `k` rounds of `device_open` followed by `device_release`. -/
def open_close_cycles : Nat → List Call
  | 0 => []
  | k + 1 => Call.op_open :: Call.op_release :: open_close_cycles k

/-- A destination whose byte at address `a` cannot be written, zeroed. -/
def user_fault_at (a : Nat) : UserMem := { ok := fun x => x != a, mem := fun _ => NUL }

/-- A trace is well formed when each `device_release` closes a session: it
comes while one of the `k` sessions opened by a successful `device_open` is
still open. -/
def well_formed (s : DeviceState) (k : Nat) : List Call → Bool
  | [] => true
  | Call.op_open :: t =>
    well_formed (device_open s).2 (if (device_open s).1 = SUCCESS then k + 1 else k) t
  | Call.op_release :: t => decide (0 < k) && well_formed (device_release s).2 (k - 1) t
  | c :: t => well_formed (step s c).2 k t

/-- The shape of `msg` and the range of `counter` kept by every call: `msg` is
an array of `BUF_LEN + 1` bytes holding a terminator, `counter` is a 32-bit
`int`. -/
def state_ok (s : DeviceState) : Prop :=
  s.msg.length = BUF_LEN + 1 ∧ NUL ∈ s.msg ∧
    -2147483648 ≤ s.counter ∧ s.counter < 2147483648

/-! ## Bounds-checked reading of `msg` -/

/-- The byte `*(msg + i)` with the bounds of the array checked: `none` outside
`msg[0 .. length msg)`. -/
def msg_at_checked (msg : List Char) (i : Int) : Option Char :=
  if 0 ≤ i ∧ i < (msg.length : Int) then msg[i.toNat]? else none

/-- The copy loop of `device_read` with every read of `msg` checked: the loop
test `*msg_ptr` and the byte fetched for `put_user`. -/
def read_loop_checked (msg : List Char) :
    Nat → Int → Nat → Nat → UserMem → Option (Nat × UserMem)
  | 0, _, _, bytes_read, u => some (bytes_read, u)
  | length + 1, msg_ptr, buffer, bytes_read, u =>
    match msg_at_checked msg msg_ptr with
    | none => none
    | some c =>
      if c ≠ NUL then
        read_loop_checked msg length (msg_ptr + 1) (buffer + 1) (bytes_read + 1)
          (put_user u c buffer).2
      else some (bytes_read, u)

/-- The operation `device_read` with every read of `msg` checked: `none` as
soon as the terminator test or the copy loop indexes outside the array. -/
def device_read_checked (s : DeviceState) (u : UserMem) (buffer : Nat) (length : Nat)
    (offset : Int) : Option ReadResult :=
  match msg_at_checked s.msg offset with
  | none => none
  | some c =>
    if c = NUL then some { ret := 0, offset := 0, user := u, dev := s }
    else
      (read_loop_checked s.msg length offset buffer 0 u).map
        (fun r => { ret := (r.1 : Int), offset := offset + (r.1 : Int), user := r.2, dev := s })

/-- The file position after a sequence of `device_read` calls of one session,
each with its own destination memory, destination address and length. -/
def cursor_after (s : DeviceState) : Int → List (UserMem × Nat × Nat) → Int
  | offset, [] => offset
  | offset, (u, buffer, length) :: rest =>
    cursor_after s (device_read s u buffer length offset).offset rest

/-! ## Basic facts about the flag -/

theorem device_open_ret (s : DeviceState) :
    (device_open s).1 = if s.already_open = CDEV_NOT_USED then SUCCESS else -EBUSY := by
  unfold device_open atomic_cmpxchg CDEV_NOT_USED
  by_cases h : s.already_open = 0 <;> simp [h]

theorem device_open_flag_busy (s : DeviceState) (h : s.already_open ≠ CDEV_NOT_USED) :
    (device_open s).2 = s := by
  unfold CDEV_NOT_USED at h
  unfold device_open atomic_cmpxchg CDEV_NOT_USED
  simp [h]

theorem device_open_flag_free (s : DeviceState) (h : s.already_open = CDEV_NOT_USED) :
    (device_open s).2.already_open = CDEV_EXCLUSIVE_OPEN := by
  unfold CDEV_NOT_USED at h
  unfold device_open atomic_cmpxchg CDEV_NOT_USED
  simp [h]

theorem step_read_dev (s : DeviceState) (u : UserMem) (b n : Nat) (off : Int) :
    (step s (Call.op_read u b n off)).2 = s := by
  simp only [step, device_read]
  split <;> rfl

theorem step_write_dev (s : DeviceState) (buff : List Char) (n : Nat) (off : Int) :
    (step s (Call.op_write buff n off)).2 = s := rfl

theorem run_append (s : DeviceState) (t₁ t₂ : List Call) :
    run s (t₁ ++ t₂) = run (run s t₁) t₂ := by
  induction t₁ generalizing s with
  | nil => rfl
  | cons c t ih => exact ih (step s c).2

theorem run_busy_of_no_release (mid : List Call) (s : DeviceState)
    (hs : s.already_open ≠ CDEV_NOT_USED) (hm : ∀ c ∈ mid, Call.is_release c = false) :
    (run s mid).already_open ≠ CDEV_NOT_USED := by
  induction mid generalizing s with
  | nil => exact hs
  | cons c t ih =>
    have ht : ∀ c ∈ t, Call.is_release c = false := fun d hd => hm d (List.mem_cons_of_mem _ hd)
    have hc := hm c (List.mem_cons_self _ _)
    cases c with
    | op_open =>
      simp only [run, step, device_open_flag_busy s hs]
      exact ih s hs ht
    | op_release => simp [Call.is_release] at hc
    | op_read u b n off =>
      simp only [run, step_read_dev]
      exact ih s hs ht
    | op_write buff n off =>
      simp only [run, step_write_dev]
      exact ih s hs ht

theorem open_sessions_inv (t : List Call) (s : DeviceState) (k : Nat)
    (hk : k ≤ 1) (h0 : s.already_open = CDEV_NOT_USED → k = 0) :
    open_sessions s k t ≤ 1 := by
  induction t generalizing s k with
  | nil => exact hk
  | cons c t ih =>
    cases c with
    | op_open =>
      simp only [open_sessions]
      by_cases hf : s.already_open = CDEV_NOT_USED
      · refine ih _ _ ?_ ?_
        · simp [device_open_ret, hf, h0 hf]
        · intro h
          rw [device_open_flag_free s hf] at h
          exact absurd h (by decide)
      · refine ih _ _ ?_ ?_
        · simp [device_open_ret, hf, SUCCESS, EBUSY, hk]
        · intro h
          rw [device_open_flag_busy s hf] at h
          exact absurd h hf
    | op_release =>
      simp only [open_sessions]
      exact ih _ _ (by omega) (fun _ => by omega)
    | op_read u b n off =>
      simp only [open_sessions, step_read_dev]
      exact ih s k hk h0
    | op_write buff n off =>
      simp only [open_sessions, step_write_dev]
      exact ih s k hk h0

/-! ## Mutual exclusion -/

/-- C1. Mutual exclusion. In every state reached from the module-load state
by a sequence of calls, `device_open` returns `SUCCESS` exactly when
`already_open` is `CDEV_NOT_USED` and `-EBUSY` otherwise; after a successful
open, an open attempted after any calls that contain no release returns
`-EBUSY`; and at most one session is open after every trace. -/
theorem mutual_exclusion :
    (∀ t : List Call,
      ((device_open (run module_load t)).1 = SUCCESS ∧
          (run module_load t).already_open = CDEV_NOT_USED) ∨
      ((device_open (run module_load t)).1 = -EBUSY ∧
          (run module_load t).already_open ≠ CDEV_NOT_USED)) ∧
    (∀ t mid : List Call,
      (device_open (run module_load t)).1 = SUCCESS →
      (∀ c ∈ mid, Call.is_release c = false) →
      (device_open (run (device_open (run module_load t)).2 mid)).1 = -EBUSY) ∧
    (∀ t : List Call, open_sessions module_load 0 t ≤ 1) := by
  refine ⟨?_, ?_, ?_⟩
  · intro t
    by_cases hf : (run module_load t).already_open = CDEV_NOT_USED
    · exact Or.inl ⟨by simp [device_open_ret, hf], hf⟩
    · exact Or.inr ⟨by simp [device_open_ret, hf], hf⟩
  · intro t mid hopen hmid
    have hf : (run module_load t).already_open = CDEV_NOT_USED := by
      by_contra hne
      rw [device_open_ret, if_neg hne] at hopen
      exact absurd hopen (by decide)
    have hbusy : (device_open (run module_load t)).2.already_open ≠ CDEV_NOT_USED := by
      rw [device_open_flag_free _ hf]
      decide
    have := run_busy_of_no_release mid _ hbusy hmid
    rw [device_open_ret, if_neg this]
  · intro t
    exact open_sessions_inv t module_load 0 (by omega) (fun _ => rfl)

/-- Witness of `mutual_exclusion`: open, then a failed open and a write, then
a further open is refused. -/
theorem mutual_exclusion_witness :
    (device_open (run (device_open (run module_load [])).2
      [Call.op_open, Call.op_write [] 3 0])).1 = -EBUSY :=
  mutual_exclusion.2.1 [] [Call.op_open, Call.op_write [] 3 0] (by decide) (by decide)

/-! ## The open counter -/

theorem wrap32_succ (x : Int) : wrap32 (wrap32 x + 1) = wrap32 (x + 1) := by
  unfold wrap32
  omega

theorem wrap32_of_lt (k : Nat) (h : k < 2147483648) : wrap32 (k : Int) = (k : Int) := by
  unfold wrap32
  omega

theorem device_open_counter (s : DeviceState) :
    (device_open s).2.counter =
      if s.already_open = CDEV_NOT_USED then wrap32 (s.counter + 1) else s.counter := by
  unfold device_open atomic_cmpxchg CDEV_NOT_USED
  by_cases h : s.already_open = 0 <;> simp [h]

theorem successful_opens_append (t₁ t₂ : List Call) (s : DeviceState) :
    successful_opens s (t₁ ++ t₂) =
      successful_opens s t₁ + successful_opens (run s t₁) t₂ := by
  induction t₁ generalizing s with
  | nil => simp [successful_opens, run]
  | cons c t ih =>
    cases c with
    | op_open =>
      show (if (device_open s).1 = SUCCESS then 1 else 0)
            + successful_opens (device_open s).2 (t ++ t₂)
          = (if (device_open s).1 = SUCCESS then 1 else 0)
            + successful_opens (device_open s).2 t
            + successful_opens (run (device_open s).2 t) t₂
      rw [ih, Nat.add_assoc]
    | op_release => exact ih _
    | op_read u b n off => exact ih _
    | op_write buff n off => exact ih _

theorem run_counter (t : List Call) (s : DeviceState) (x : Int)
    (hx : s.counter = wrap32 x) :
    (run s t).counter = wrap32 (x + (successful_opens s t : Int)) := by
  induction t generalizing s x with
  | nil => simpa [run, successful_opens] using hx
  | cons c t ih =>
    cases c with
    | op_open =>
      simp only [run, step, successful_opens]
      by_cases hf : s.already_open = CDEV_NOT_USED
      · have h1 : (device_open s).2.counter = wrap32 (x + 1) := by
          rw [device_open_counter, if_pos hf, hx, wrap32_succ]
        rw [ih _ (x + 1) h1, device_open_ret, if_pos hf]
        simp only [if_true]
        congr 1
        push_cast
        ring
      · rw [device_open_flag_busy s hf, ih s x hx, device_open_ret, if_neg hf]
        have : ¬ (-EBUSY = SUCCESS) := by decide
        simp [this]
    | op_release =>
      simp only [run, step, successful_opens]
      exact ih _ x hx
    | op_read u b n off =>
      simp only [run, successful_opens, step_read_dev]
      exact ih s x hx
    | op_write buff n off =>
      simp only [run, successful_opens, step_write_dev]
      exact ih s x hx

theorem open_close_cycles_spec (k : Nat) (s : DeviceState)
    (hs : s.already_open = CDEV_NOT_USED) :
    successful_opens s (open_close_cycles k) = k ∧
      (run s (open_close_cycles k)).already_open = CDEV_NOT_USED := by
  induction k generalizing s with
  | zero => exact ⟨rfl, hs⟩
  | succ k ih =>
    have h := ih (device_release (device_open s).2).2 rfl
    simp only [open_close_cycles, successful_opens, run, step, device_open_ret, if_pos hs]
    refine ⟨?_, h.2⟩
    rw [h.1]
    simp
    omega

theorem cycles_2_pow_31 :
    successful_opens module_load (open_close_cycles 2147483648) = 2147483648 ∧
    (run module_load (open_close_cycles 2147483648)).counter = -2147483648 ∧
    (run module_load (open_close_cycles 2147483648)).already_open = CDEV_NOT_USED := by
  have h := open_close_cycles_spec 2147483648 module_load rfl
  refine ⟨h.1, ?_, h.2⟩
  rw [run_counter (open_close_cycles 2147483648) module_load 0 rfl, h.1]
  unfold wrap32
  norm_num

/-- C2, counterexample. After 2147483648 rounds of open and release, all of
them successful, the counter is -2147483648: it is neither the number of
successful opens nor non-negative. -/
theorem counter_wraps_after_2_pow_31_opens :
    successful_opens module_load (open_close_cycles 2147483648) = 2147483648 ∧
    (run module_load (open_close_cycles 2147483648)).counter = -2147483648 := by
  exact ⟨cycles_2_pow_31.1, cycles_2_pow_31.2.1⟩

/-- C2, amended. After every trace of calls from the module-load state the
counter is the number of successful opens wrapped to a 32-bit `int`; as long
as that number is below 2147483648 the counter equals it, is non-negative,
and no call decreases it. -/
theorem counter_counts_successful_opens (t : List Call) :
    (run module_load t).counter = wrap32 (successful_opens module_load t : Int) ∧
    (successful_opens module_load t < 2147483648 →
      (run module_load t).counter = (successful_opens module_load t : Int) ∧
      0 ≤ (run module_load t).counter) ∧
    (∀ c : Call, successful_opens module_load (t ++ [c]) < 2147483648 →
      (run module_load t).counter ≤ (run module_load (t ++ [c])).counter) := by
  have hc : ∀ t : List Call,
      (run module_load t).counter = wrap32 (successful_opens module_load t : Int) := by
    intro t
    have := run_counter t module_load 0 rfl
    simpa using this
  refine ⟨hc t, ?_, ?_⟩
  · intro hlt
    rw [hc t, wrap32_of_lt _ hlt]
    exact ⟨rfl, Int.natCast_nonneg _⟩
  · intro c hlt
    have hle : successful_opens module_load t ≤ successful_opens module_load (t ++ [c]) := by
      rw [successful_opens_append]
      exact Nat.le_add_right _ _
    rw [hc t, hc (t ++ [c]), wrap32_of_lt _ hlt, wrap32_of_lt _ (by omega)]
    exact_mod_cast hle

/-- Witness of `counter_counts_successful_opens`: open, failed open, release,
open leaves the counter at 2, and a further open does not decrease it. -/
theorem counter_counts_successful_opens_witness :
    ((run module_load [Call.op_open, Call.op_open, Call.op_release, Call.op_open]).counter
        = ((2 : Nat) : Int) ∧
      0 ≤ (run module_load
        [Call.op_open, Call.op_open, Call.op_release, Call.op_open]).counter) ∧
    (run module_load [Call.op_open, Call.op_open, Call.op_release, Call.op_open]).counter ≤
      (run module_load
        ([Call.op_open, Call.op_open, Call.op_release, Call.op_open] ++ [Call.op_open])).counter :=
  ⟨(counter_counts_successful_opens
      [Call.op_open, Call.op_open, Call.op_release, Call.op_open]).2.1 (by decide),
   (counter_counts_successful_opens
      [Call.op_open, Call.op_open, Call.op_release, Call.op_open]).2.2 Call.op_open (by decide)⟩

/-! ## The message written by `device_open` -/

theorem digitChar_ne_NUL : ∀ d < 10, Nat.digitChar d ≠ NUL := by
  decide

theorem toDigitsCore_no_NUL (fuel n : Nat) (ds : List Char) (hds : ∀ c ∈ ds, c ≠ NUL) :
    ∀ c ∈ Nat.toDigitsCore 10 fuel n ds, c ≠ NUL := by
  induction fuel generalizing n ds with
  | zero => simpa [Nat.toDigitsCore] using hds
  | succ fuel ih =>
    have hcons : ∀ c ∈ Nat.digitChar (n % 10) :: ds, c ≠ NUL := by
      intro c hc
      rcases List.mem_cons.mp hc with h | h
      · rw [h]
        exact digitChar_ne_NUL _ (Nat.mod_lt _ (by decide))
      · exact hds c h
    unfold Nat.toDigitsCore
    by_cases h0 : n / 10 = 0
    · simpa [h0] using hcons
    · simp only [h0, if_false]
      exact ih _ _ hcons

theorem fmt_d_no_NUL (v : Int) : ∀ c ∈ fmt_d v, c ≠ NUL := by
  have hd : ∀ n : Nat, ∀ c ∈ Nat.toDigits 10 n, c ≠ NUL := fun n =>
    toDigitsCore_no_NUL (n + 1) n [] (by simp)
  unfold fmt_d
  split
  · intro c hc
    rcases List.mem_cons.mp hc with h | h
    · rw [h]
      decide
    · exact hd _ c h
  · exact hd _

theorem format_msg_no_NUL (v : Int) : ∀ c ∈ format_msg v, c ≠ NUL := by
  have h1 : ∀ c ∈ "I already told you ".toList, c ≠ NUL := by decide
  have h2 : ∀ c ∈ " times Hello world!\n".toList, c ≠ NUL := by decide
  intro c hc
  unfold format_msg at hc
  rcases List.mem_append.mp hc with h | h
  · rcases List.mem_append.mp h with h | h
    · exact h1 c h
    · exact fmt_d_no_NUL v c h
  · exact h2 c h

theorem takeWhile_terminated (text rest : List Char) (h : ∀ c ∈ text, c ≠ NUL) :
    List.takeWhile (fun c => c != NUL) (text ++ NUL :: rest) = text := by
  induction text with
  | nil => simp [List.takeWhile]
  | cons a t ih =>
    have ha : a ≠ NUL := h a (List.mem_cons_self _ _)
    have ht : ∀ c ∈ t, c ≠ NUL := fun c hc => h c (List.mem_cons_of_mem _ hc)
    have hb : (a != NUL) = true := by simpa using ha
    rw [List.cons_append, List.takeWhile_cons, hb, ih ht]
    rfl

theorem cstr_sprintf (buf text : List Char) (h : ∀ c ∈ text, c ≠ NUL) :
    cstr (sprintf buf text) = text :=
  takeWhile_terminated text _ h

theorem device_open_msg (s : DeviceState) (h : s.already_open = CDEV_NOT_USED) :
    (device_open s).2.msg = sprintf s.msg (format_msg s.counter) := by
  unfold CDEV_NOT_USED at h
  unfold device_open atomic_cmpxchg CDEV_NOT_USED
  simp [h]

theorem fmt_d_natCast (k : Nat) : fmt_d (k : Int) = (Nat.repr k).toList := by
  unfold fmt_d
  rw [if_neg (by omega)]
  rfl

/-- C3, counterexample. The open that follows 2147483648 successful opens
succeeds and stores a message that embeds -2147483648, not the decimal
digits of 2147483648. -/
theorem message_after_2_pow_31_opens :
    successful_opens module_load (open_close_cycles 2147483648) = 2147483648 ∧
    (device_open (run module_load (open_close_cycles 2147483648))).1 = SUCCESS ∧
    cstr (device_open (run module_load (open_close_cycles 2147483648))).2.msg =
      "I already told you -2147483648 times Hello world!\n".toList ∧
    cstr (device_open (run module_load (open_close_cycles 2147483648))).2.msg ≠
      "I already told you ".toList ++ (Nat.repr 2147483648).toList ++
        " times Hello world!\n".toList := by
  obtain ⟨hn, hc, hf⟩ := cycles_2_pow_31
  have hmsg : cstr (device_open (run module_load (open_close_cycles 2147483648))).2.msg =
      "I already told you -2147483648 times Hello world!\n".toList := by
    rw [device_open_msg _ hf, hc, cstr_sprintf _ _ (format_msg_no_NUL _)]
    decide
  refine ⟨hn, ?_, hmsg, ?_⟩
  · rw [device_open_ret, if_pos hf]
  · rw [hmsg]
    decide

/-- C3, amended. When `k` opens have succeeded since the module was loaded
and the device is free, the next open succeeds and leaves in `msg` the text
formatted from `k` wrapped to a 32-bit `int`, followed by a terminator; for
`k` below 2147483648 that text is
`"I already told you " ++ decimal k ++ " times Hello world!\n"`. In
particular after open, release, open the message contains `"1 times"` and
not `"0 times"`. -/
theorem message_after_kth_open (t : List Call)
    (hfree : (run module_load t).already_open = CDEV_NOT_USED) :
    (device_open (run module_load t)).1 = SUCCESS ∧
    (∃ rest, (device_open (run module_load t)).2.msg =
      format_msg (wrap32 (successful_opens module_load t : Int)) ++ NUL :: rest) ∧
    cstr (device_open (run module_load t)).2.msg =
      format_msg (wrap32 (successful_opens module_load t : Int)) ∧
    (successful_opens module_load t < 2147483648 →
      cstr (device_open (run module_load t)).2.msg =
        "I already told you ".toList ++ (Nat.repr (successful_opens module_load t)).toList ++
          " times Hello world!\n".toList) ∧
    ("1 times".toList <:+:
        cstr (run module_load [Call.op_open, Call.op_release, Call.op_open]).msg ∧
      ¬ "0 times".toList <:+:
        cstr (run module_load [Call.op_open, Call.op_release, Call.op_open]).msg) := by
  have hc : (run module_load t).counter = wrap32 (successful_opens module_load t : Int) := by
    simpa using run_counter t module_load 0 rfl
  have hm := device_open_msg _ hfree
  rw [hc] at hm
  have hcs : cstr (device_open (run module_load t)).2.msg =
      format_msg (wrap32 (successful_opens module_load t : Int)) := by
    rw [hm, cstr_sprintf _ _ (format_msg_no_NUL _)]
  refine ⟨?_, ⟨_, hm⟩, hcs, ?_, ?_⟩
  · rw [device_open_ret, if_pos hfree]
  · intro hlt
    rw [hcs, wrap32_of_lt _ hlt]
    unfold format_msg
    rw [fmt_d_natCast]
  · decide

/-- Witness of `message_after_kth_open`: the open after open, release. -/
theorem message_after_kth_open_witness :
    cstr (device_open (run module_load [Call.op_open, Call.op_release])).2.msg =
      "I already told you ".toList ++
        (Nat.repr (successful_opens module_load [Call.op_open, Call.op_release])).toList ++
          " times Hello world!\n".toList :=
  (message_after_kth_open [Call.op_open, Call.op_release] (by decide)).2.2.2.1 (by decide)

/-! ## One call of `device_read` -/

theorem cstr_cons (a : Char) (buf : List Char) :
    cstr (a :: buf) = if a = NUL then [] else a :: cstr buf := by
  unfold cstr
  rw [List.takeWhile_cons]
  by_cases h : a = NUL <;> simp [h]

theorem cstr_getD_lt (buf : List Char) (i : Nat) (h : i < (cstr buf).length) :
    buf.getD i NUL = (cstr buf).getD i NUL ∧ buf.getD i NUL ≠ NUL := by
  induction buf generalizing i with
  | nil => simp [cstr] at h
  | cons a buf ih =>
    rw [cstr_cons] at h ⊢
    by_cases ha : a = NUL
    · simp [ha] at h
    · rw [if_neg ha] at h ⊢
      cases i with
      | zero => simpa using ha
      | succ i =>
        have := ih i (by simpa using h)
        simpa using this

theorem cstr_getD_length (buf : List Char) : buf.getD (cstr buf).length NUL = NUL := by
  induction buf with
  | nil => rfl
  | cons a buf ih =>
    rw [cstr_cons]
    by_cases ha : a = NUL
    · simp [ha]
    · rw [if_neg ha]
      simpa using ih

theorem msg_at_natCast (msg : List Char) (i : Nat) : msg_at msg (i : Int) = msg.getD i NUL := by
  unfold msg_at
  rw [if_neg (by omega), Int.toNat_ofNat]

theorem msg_at_lt (msg : List Char) (i : Nat) (h : i < (cstr msg).length) :
    msg_at msg (i : Int) = (cstr msg).getD i NUL ∧ msg_at msg (i : Int) ≠ NUL := by
  rw [msg_at_natCast]
  exact cstr_getD_lt msg i h

theorem msg_at_length (msg : List Char) : msg_at msg ((cstr msg).length : Int) = NUL := by
  rw [msg_at_natCast]
  exact cstr_getD_length msg

theorem put_user_ok (u : UserMem) (x : Char) (ptr : Nat) : (put_user u x ptr).2.ok = u.ok := by
  unfold put_user
  split <;> rfl

theorem put_user_mem (u : UserMem) (x : Char) (ptr a : Nat) :
    (put_user u x ptr).2.mem a = if a = ptr ∧ u.ok ptr = true then x else u.mem a := by
  unfold put_user
  by_cases hok : u.ok ptr = true
  · by_cases ha : a = ptr
    · simp [hok, ha]
    · simp [hok, ha, Function.update_noteq ha]
  · simp [hok]

theorem read_loop_spec (msg : List Char) (n p b br : Nat) (u : UserMem)
    (hp : p ≤ (cstr msg).length) :
    (read_loop msg n (p : Int) b br u).1 = br + min n ((cstr msg).length - p) ∧
    (read_loop msg n (p : Int) b br u).2.ok = u.ok ∧
    ∀ a, (read_loop msg n (p : Int) b br u).2.mem a =
      if b ≤ a ∧ a < b + min n ((cstr msg).length - p) ∧ u.ok a = true
      then (cstr msg).getD (p + (a - b)) NUL else u.mem a := by
  induction n generalizing p b br u with
  | zero =>
    refine ⟨by simp [read_loop], rfl, fun a => ?_⟩
    have : ¬ (b ≤ a ∧ a < b + min 0 ((cstr msg).length - p) ∧ u.ok a = true) := by
      rintro ⟨h1, h2, -⟩
      simp at h2
      omega
    rw [if_neg this]
    rfl
  | succ n ih =>
    rcases Nat.lt_or_ge p (cstr msg).length with hlt | hge
    · obtain ⟨hval, hne⟩ := msg_at_lt msg p hlt
      have hstep : read_loop msg (n + 1) (p : Int) b br u =
          read_loop msg n ((p + 1 : Nat) : Int) (b + 1) (br + 1)
            (put_user u (msg_at msg (p : Int)) b).2 := by
        rw [read_loop, if_pos hne]
        rfl
      obtain ⟨h1, h2, h3⟩ := ih (p + 1) (b + 1) (br + 1)
        (put_user u (msg_at msg (p : Int)) b).2 hlt
      rw [hstep]
      refine ⟨by rw [h1]; omega, by rw [h2, put_user_ok], fun a => ?_⟩
      rw [h3 a, put_user_ok]
      by_cases hab : a = b
      · subst hab
        have hpm : (put_user u (msg_at msg (p : Int)) a).2.mem a =
            if u.ok a = true then (cstr msg).getD p NUL else u.mem a := by
          rw [put_user_mem, hval]
          by_cases hok : u.ok a = true <;> simp [hok]
        rw [if_neg (by omega), hpm]
        by_cases hok : u.ok a = true
        · have hc : a ≤ a ∧ a < a + min (n + 1) ((cstr msg).length - p) ∧ u.ok a = true :=
            ⟨le_refl _, by omega, hok⟩
          rw [if_pos hok, if_pos hc]
          simp
        · rw [if_neg hok, if_neg (fun h => hok h.2.2)]
      · have hpm : (put_user u (msg_at msg (p : Int)) b).2.mem a = u.mem a := by
          rw [put_user_mem, if_neg (fun h => hab h.1)]
        rw [hpm]
        by_cases hc : b + 1 ≤ a ∧ a < b + 1 + min n ((cstr msg).length - (p + 1)) ∧ u.ok a = true
        · have hc2 : b ≤ a ∧ a < b + min (n + 1) ((cstr msg).length - p) ∧ u.ok a = true :=
            ⟨by omega, by omega, hc.2.2⟩
          rw [if_pos hc, if_pos hc2]
          congr 1
          omega
        · have hc2 : ¬ (b ≤ a ∧ a < b + min (n + 1) ((cstr msg).length - p) ∧ u.ok a = true) := by
            rintro ⟨h1, h2, h3⟩
            exact hc ⟨by omega, by omega, h3⟩
          rw [if_neg hc, if_neg hc2]
    · have hpe : p = (cstr msg).length := le_antisymm hp hge
      have hnul : msg_at msg (p : Int) = NUL := by
        rw [hpe]
        exact msg_at_length msg
      have hstep : read_loop msg (n + 1) (p : Int) b br u = (br, u) := by
        rw [read_loop, if_neg (by simp [hnul])]
      rw [hstep]
      refine ⟨by simp; omega, rfl, fun a => ?_⟩
      rw [if_neg]
      rintro ⟨h1, h2, -⟩
      omega

theorem read_loop_count_ge (msg : List Char) (n : Nat) (p : Int) (b br : Nat) (u : UserMem) :
    br ≤ (read_loop msg n p b br u).1 := by
  induction n generalizing p b br u with
  | zero => exact le_refl _
  | succ n ih =>
    rw [read_loop]
    split
    · exact le_trans (Nat.le_succ br) (ih _ _ _ _)
    · exact le_refl _

theorem cstr_length_lt (buf : List Char) (h : NUL ∈ buf) : (cstr buf).length < buf.length := by
  induction buf with
  | nil => simp at h
  | cons a buf ih =>
    rw [cstr_cons]
    by_cases ha : a = NUL
    · simp [ha]
    · rw [if_neg ha]
      rcases List.mem_cons.mp h with h | h
      · exact absurd h.symm ha
      · simpa using ih h

theorem device_read_at_end (s : DeviceState) (u : UserMem) (b n : Nat) :
    device_read s u b n ((cstr s.msg).length : Int) =
      { ret := 0, offset := 0, user := u, dev := s } := by
  unfold device_read
  rw [if_pos (msg_at_length s.msg)]

theorem device_read_before_end (s : DeviceState) (u : UserMem) (b n c : Nat)
    (hc : c < (cstr s.msg).length) :
    (device_read s u b n (c : Int)).ret = ((min n ((cstr s.msg).length - c) : Nat) : Int) ∧
    (device_read s u b n (c : Int)).offset =
      (c : Int) + ((min n ((cstr s.msg).length - c) : Nat) : Int) ∧
    (device_read s u b n (c : Int)).dev = s ∧
    (device_read s u b n (c : Int)).user.ok = u.ok ∧
    ∀ a, (device_read s u b n (c : Int)).user.mem a =
      if b ≤ a ∧ a < b + min n ((cstr s.msg).length - c) ∧ u.ok a = true
      then (cstr s.msg).getD (c + (a - b)) NUL else u.mem a := by
  obtain ⟨h1, h2, h3⟩ := read_loop_spec s.msg n c b 0 u (le_of_lt hc)
  unfold device_read
  rw [if_neg (msg_at_lt s.msg c hc).2]
  simp only [h1, h2, Nat.zero_add]
  exact ⟨trivial, trivial, trivial, trivial, h3⟩

theorem delivered_eq (u : UserMem) (m : List Char) (b c r : Nat) (hr : c + r ≤ m.length)
    (h : ∀ i < r, u.mem (b + i) = m.getD (c + i) NUL) :
    delivered u b r = (m.drop c).take r := by
  unfold delivered
  apply List.ext_getElem
  · simp
    omega
  · intro i h1 h2
    simp at h1
    have hlt : c + i < m.length := by omega
    simp [h i h1, List.getElem?_eq_getElem hlt]

/-! ## A pass of reads -/

theorem read_pass_spec (s : DeviceState) (n : Nat) (hn : 0 < n) (fuel c : Nat)
    (hc : c ≤ (cstr s.msg).length) (hf : (cstr s.msg).length - c < fuel) :
    ∃ chunks : List (List Char),
      read_pass n fuel s (c : Int) = some (chunks, 0) ∧
      chunks.flatten = (cstr s.msg).drop c ∧
      ∀ ch ∈ chunks, ch ≠ [] ∧ ch.length ≤ n := by
  induction fuel generalizing c with
  | zero => omega
  | succ fuel ih =>
    rcases Nat.lt_or_ge c (cstr s.msg).length with hlt | hge
    · obtain ⟨h1, h2, h3, -, h5⟩ := device_read_before_end s user_zero 0 n c hlt
      have hk : 0 < min n ((cstr s.msg).length - c) := by omega
      obtain ⟨chunks, e1, e2, e3⟩ := ih (c + min n ((cstr s.msg).length - c)) (by omega) (by omega)
      have hdel : delivered (device_read s user_zero 0 n (c : Int)).user 0
          (min n ((cstr s.msg).length - c)) =
          ((cstr s.msg).drop c).take (min n ((cstr s.msg).length - c)) := by
        apply delivered_eq _ _ _ _ _ (by omega)
        intro i hi
        rw [h5, if_pos ⟨by omega, by omega, rfl⟩]
        congr 1
        omega
      refine ⟨((cstr s.msg).drop c).take (min n ((cstr s.msg).length - c)) :: chunks, ?_, ?_, ?_⟩
      · rw [read_pass]
        simp only [h1, h2, h3]
        rw [if_neg (by omega)]
        have e1' : read_pass n fuel s
            ((c : Int) + ((min n ((cstr s.msg).length - c) : Nat) : Int)) = some (chunks, 0) := by
          rw [← e1]
          push_cast
          rfl
        rw [e1', Int.toNat_ofNat, hdel]
        rfl
      · have hdd : (cstr s.msg).drop (c + min n ((cstr s.msg).length - c)) =
            ((cstr s.msg).drop c).drop (min n ((cstr s.msg).length - c)) := by
          rw [List.drop_drop, Nat.add_comm]
        rw [List.flatten_cons, e2, hdd, List.take_append_drop]
      · intro ch hch
        rcases List.mem_cons.mp hch with h | h
        · subst h
          refine ⟨?_, ?_⟩
          · intro hnil
            have := congrArg List.length hnil
            simp at this
            omega
          · simp
        · exact e3 ch h
    · have hce : c = (cstr s.msg).length := le_antisymm hc hge
      refine ⟨[], ?_, ?_, by simp⟩
      · rw [read_pass, hce, device_read_at_end]
        simp
      · rw [hce]
        simp

theorem device_read_dev (s : DeviceState) (u : UserMem) (b n : Nat) (off : Int) :
    (device_read s u b n off).dev = s := by
  unfold device_read
  split <;> rfl

theorem device_read_ret_zero (s : DeviceState) (u : UserMem) (b n : Nat) (off : Int)
    (hn : 0 < n) (hret : (device_read s u b n off).ret = 0) :
    msg_at s.msg off = NUL ∧ device_read s u b n off =
      { ret := 0, offset := 0, user := u, dev := s } := by
  by_cases h : msg_at s.msg off = NUL
  · refine ⟨h, ?_⟩
    unfold device_read
    rw [if_pos h]
  · exfalso
    obtain ⟨k, rfl⟩ : ∃ k, n = k + 1 := ⟨n - 1, by omega⟩
    unfold device_read at hret
    rw [if_neg h] at hret
    simp only [read_loop, ne_eq, h, not_false_eq_true, if_true] at hret
    have := read_loop_count_ge s.msg k (off + 1) (b + 1) (0 + 1)
      (put_user u (msg_at s.msg off) b).2
    omega

theorem device_read_zero_length (s : DeviceState) (u : UserMem) (b : Nat) :
    (device_read s u b 0 0).ret = 0 ∧ (device_read s u b 0 0).offset = 0 := by
  unfold device_read
  split <;> simp [read_loop]

theorem read_pass_end (s : DeviceState) (n : Nat) (hn : 0 < n) (fuel : Nat) (off : Int)
    (p : List (List Char) × Int) (h : read_pass n fuel s off = some p) : p.2 = 0 := by
  induction fuel generalizing off p with
  | zero => simp [read_pass] at h
  | succ fuel ih =>
    rw [read_pass] at h
    by_cases hr : (device_read s user_zero 0 n off).ret = 0
    · simp only [hr, if_true] at h
      rw [(device_read_ret_zero s user_zero 0 n off hn hr).2] at h
      simp only [Option.some.injEq] at h
      rw [← h]
    · simp only [hr, if_false, device_read_dev] at h
      obtain ⟨q, hq, hp⟩ := Option.map_eq_some'.mp h
      rw [← hp]
      exact ih _ q hq

/-- C4, counterexample. With requested length 0 a pass over the message of
the first open ends at once: the first call returns 0, nothing has been
delivered and the position is still 0, although the message is not empty. -/
theorem zero_length_pass_delivers_nothing :
    (device_open module_load).1 = SUCCESS ∧
    read_pass 0 100 (device_open module_load).2 0 = some ([], 0) ∧
    ([] : List (List Char)).flatten ≠ cstr (device_open module_load).2.msg ∧
    (device_read (device_open module_load).2 user_zero 0 0 0).dev = (device_open module_load).2 := by
  decide

/-- C4, amended. For every device state (in particular after a successful
open) and every requested length of at least 1, a pass of `device_read` calls
with that length from position 0 ends after at most `length msg + 1` calls;
the chunks delivered are non-empty, no longer than the requested length, and
their concatenation is the whole message; the call at the end of the message
returns 0. -/
theorem read_pass_delivers_message (s : DeviceState) (n fuel : Nat) (hn : 0 < n)
    (hf : (cstr s.msg).length < fuel) :
    ∃ chunks : List (List Char),
      read_pass n fuel s 0 = some (chunks, 0) ∧
      chunks.flatten = cstr s.msg ∧
      (∀ ch ∈ chunks, ch ≠ [] ∧ ch.length ≤ n) ∧
      (device_read s user_zero 0 n ((cstr s.msg).length : Int)).ret = 0 := by
  obtain ⟨chunks, h1, h2, h3⟩ := read_pass_spec s n hn fuel 0 (Nat.zero_le _) (by omega)
  refine ⟨chunks, ?_, ?_, h3, ?_⟩
  · simpa using h1
  · simpa using h2
  · rw [device_read_at_end]

/-- Witness of `read_pass_delivers_message`: reads of 5 bytes after the first
open. -/
theorem read_pass_delivers_message_witness :
    ∃ chunks : List (List Char),
      read_pass 5 41 (device_open module_load).2 0 = some (chunks, 0) ∧
      chunks.flatten = cstr (device_open module_load).2.msg ∧
      (∀ ch ∈ chunks, ch ≠ [] ∧ ch.length ≤ 5) ∧
      (device_read (device_open module_load).2 user_zero 0 5
        ((cstr (device_open module_load).2.msg).length : Int)).ret = 0 :=
  read_pass_delivers_message (device_open module_load).2 5 41 (by decide) (by decide)

/-- C5. Idempotent restart. A `device_read` with the position at the
terminator returns 0, sets the position to 0, and changes neither the device
state nor user memory; a pass that ended leaves the position at 0 and the pass
that follows delivers the same chunks; for a requested length of at least 1
those chunks are the whole message on every pass. -/
theorem idempotent_restart (s : DeviceState) (u : UserMem) (b n : Nat) :
    device_read s u b n ((cstr s.msg).length : Int) =
      { ret := 0, offset := 0, user := u, dev := s } ∧
    (∀ (fuel : Nat) (p : List (List Char) × Int),
      read_pass n fuel s 0 = some p →
        p.2 = 0 ∧
        read_pass n fuel (device_read s u b n ((cstr s.msg).length : Int)).dev p.2 = some p) ∧
    (∀ fuel : Nat, 0 < n → (cstr s.msg).length < fuel →
      ∃ chunks : List (List Char),
        read_pass n fuel s 0 = some (chunks, 0) ∧
        chunks.flatten = cstr s.msg ∧
        read_pass n fuel (device_read s u b n ((cstr s.msg).length : Int)).dev
          (device_read s u b n ((cstr s.msg).length : Int)).offset = some (chunks, 0) ∧
        (device_read s u b n ((cstr s.msg).length : Int)).dev.msg = s.msg) := by
  refine ⟨device_read_at_end s u b n, ?_, ?_⟩
  · intro fuel p hp
    have h0 : p.2 = 0 := by
      rcases Nat.eq_zero_or_pos n with hn | hn
      · subst hn
        cases fuel with
        | zero => simp [read_pass] at hp
        | succ fuel =>
          rw [read_pass] at hp
          obtain ⟨hr, ho⟩ := device_read_zero_length s user_zero 0
          simp only [hr, if_true, ho, Option.some.injEq] at hp
          rw [← hp]
      · exact read_pass_end s n hn fuel 0 p hp
    refine ⟨h0, ?_⟩
    rw [device_read_dev, h0]
    exact hp
  · intro fuel hn hf
    obtain ⟨chunks, h1, h2, -⟩ := read_pass_spec s n hn fuel 0 (Nat.zero_le _) (by omega)
    refine ⟨chunks, by simpa using h1, by simpa using h2, ?_, ?_⟩
    · rw [device_read_at_end]
      simpa using h1
    · rw [device_read_dev]

/-- Witness of `idempotent_restart`: the pass of 40-byte reads after the first
open delivers the message in one chunk, and so does the pass that follows. -/
theorem idempotent_restart_witness :
    ((0 : Int) = 0 ∧
      read_pass 40 41
        (device_read (device_open module_load).2 user_zero 0 40
          ((cstr (device_open module_load).2.msg).length : Int)).dev 0 =
        some (["I already told you 0 times Hello world!\n".toList], 0)) ∧
    ∃ chunks : List (List Char),
      read_pass 40 41 (device_open module_load).2 0 = some (chunks, 0) ∧
      chunks.flatten = cstr (device_open module_load).2.msg ∧
      read_pass 40 41
        (device_read (device_open module_load).2 user_zero 0 40
          ((cstr (device_open module_load).2.msg).length : Int)).dev
        (device_read (device_open module_load).2 user_zero 0 40
          ((cstr (device_open module_load).2.msg).length : Int)).offset = some (chunks, 0) ∧
      (device_read (device_open module_load).2 user_zero 0 40
          ((cstr (device_open module_load).2.msg).length : Int)).dev.msg =
        (device_open module_load).2.msg :=
  ⟨(idempotent_restart (device_open module_load).2 user_zero 0 40).2.1 41
      (["I already told you 0 times Hello world!\n".toList], 0) (by decide),
   (idempotent_restart (device_open module_load).2 user_zero 0 40).2.2 41
      (by decide) (by decide)⟩

/-! ## Write, release -/

/-- C6. Write rejection. For every device state and every write request
`device_write` returns `-EINVAL` (that is -22) and leaves `msg`, the open
counter and the `already_open` flag, indeed the whole device state,
unchanged. -/
theorem write_rejected (s : DeviceState) (buff : List Char) (len : Nat) (off : Int) :
    (device_write s buff len off).1 = -EINVAL ∧
    (device_write s buff len off).1 = -22 ∧
    (device_write s buff len off).2.msg = s.msg ∧
    (device_write s buff len off).2.counter = s.counter ∧
    (device_write s buff len off).2.already_open = s.already_open ∧
    (device_write s buff len off).2 = s ∧
    (step s (Call.op_write buff len off)).2 = s :=
  ⟨rfl, rfl, rfl, rfl, rfl, rfl, rfl⟩

/-- C7. Release frees the device. For every device state `device_release`
returns `SUCCESS` and sets `already_open` to `CDEV_NOT_USED`, and a
`device_open` issued right after it succeeds and takes the device. -/
theorem release_frees_device (s : DeviceState) :
    (device_release s).1 = SUCCESS ∧
    (device_release s).2.already_open = CDEV_NOT_USED ∧
    (device_open (device_release s).2).1 = SUCCESS ∧
    (device_open (device_release s).2).2.already_open = CDEV_EXCLUSIVE_OPEN := by
  have hfree : (device_release s).2.already_open = CDEV_NOT_USED := rfl
  refine ⟨rfl, hfree, ?_, ?_⟩
  · rw [device_open_ret, if_pos hfree]
  · exact device_open_flag_free _ hfree

/-! ## The first scenario -/

/-- C8, counterexample. After the first open a read of 1000 bytes at
position 0 returns 40, not 41: the terminator is not copied. -/
theorem first_read_returns_40_not_41 :
    (device_open module_load).1 = SUCCESS ∧
    (device_read (device_open module_load).2 user_zero 0 1000 0).ret = 40 ∧
    (device_read (device_open module_load).2 user_zero 0 1000 0).ret ≠ 41 := by
  decide

/-- C8, amended. From the module-load state the open succeeds, a read of
1000 bytes at position 0 delivers `"I already told you 0 times Hello world!\n"`,
returns 40, the length of that text, and writes nothing behind it; the next
read, at the position the first one left, returns 0. -/
theorem first_scenario :
    (device_open module_load).1 = SUCCESS ∧
    (device_read (device_open module_load).2 user_zero 0 1000 0).ret = 40 ∧
    delivered (device_read (device_open module_load).2 user_zero 0 1000 0).user 0 40 =
      "I already told you 0 times Hello world!\n".toList ∧
    "I already told you 0 times Hello world!\n".length = 40 ∧
    (device_read (device_open module_load).2 user_zero 0 1000 0).user.mem 40 = user_zero.mem 40 ∧
    (device_read (device_open module_load).2 user_zero 0 1000 0).offset = 40 ∧
    (device_read (device_read (device_open module_load).2 user_zero 0 1000 0).dev
      (device_read (device_open module_load).2 user_zero 0 1000 0).user 0 1000
      (device_read (device_open module_load).2 user_zero 0 1000 0).offset).ret = 0 := by
  decide

/-! ## Postcondition of a single read -/

/-- C9. Single-read postcondition. For the message `m` held in `msg`, a
position `c < length m` and a requested length `n`, `device_read` returns
`r = min n (length m - c)`, leaves the position at `c + r` and the device
state unchanged; the destination holds `m[c + i]` at every writable address
`buffer + i` with `i < r` and is unchanged everywhere else, so on a writable
destination the bytes delivered are `m[c .. c + r)` in order; `r` is at most
`n`, and at most `BUF_LEN` when `msg` is an array of `BUF_LEN + 1` bytes
holding a terminator. -/
theorem single_read_postcondition (s : DeviceState) (u : UserMem) (buffer n c : Nat)
    (hc : c < (cstr s.msg).length) :
    (device_read s u buffer n (c : Int)).ret =
      ((min n ((cstr s.msg).length - c) : Nat) : Int) ∧
    (device_read s u buffer n (c : Int)).offset =
      (c : Int) + ((min n ((cstr s.msg).length - c) : Nat) : Int) ∧
    (device_read s u buffer n (c : Int)).dev = s ∧
    (∀ a, (device_read s u buffer n (c : Int)).user.mem a =
      if buffer ≤ a ∧ a < buffer + min n ((cstr s.msg).length - c) ∧ u.ok a = true
      then (cstr s.msg).getD (c + (a - buffer)) NUL else u.mem a) ∧
    ((∀ i < min n ((cstr s.msg).length - c), u.ok (buffer + i) = true) →
      delivered (device_read s u buffer n (c : Int)).user buffer
          (min n ((cstr s.msg).length - c)) =
        ((cstr s.msg).drop c).take (min n ((cstr s.msg).length - c))) ∧
    (device_read s u buffer n (c : Int)).ret ≤ (n : Int) ∧
    (s.msg.length = BUF_LEN + 1 → NUL ∈ s.msg →
      (device_read s u buffer n (c : Int)).ret ≤ (BUF_LEN : Int)) := by
  obtain ⟨h1, h2, h3, -, h5⟩ := device_read_before_end s u buffer n c hc
  refine ⟨h1, h2, h3, h5, ?_, ?_, ?_⟩
  · intro hok
    apply delivered_eq _ _ _ _ _ (by omega)
    intro i hi
    rw [h5, if_pos ⟨by omega, by omega, hok i hi⟩]
    congr 1
    omega
  · rw [h1]
    exact_mod_cast Nat.min_le_left _ _
  · intro hlen hnul
    have := cstr_length_lt s.msg hnul
    rw [h1]
    have hle : min n ((cstr s.msg).length - c) ≤ BUF_LEN := by omega
    exact_mod_cast hle

/-- Witness of `single_read_postcondition`: a read of 5 bytes at position 38
of the first message returns the 2 bytes that are left. -/
theorem single_read_postcondition_witness :
    (device_read (device_open module_load).2 user_zero 0 5 ((38 : Nat) : Int)).ret =
      ((min 5 ((cstr (device_open module_load).2.msg).length - 38) : Nat) : Int) ∧
    delivered (device_read (device_open module_load).2 user_zero 0 5 ((38 : Nat) : Int)).user 0
        (min 5 ((cstr (device_open module_load).2.msg).length - 38)) =
      ((cstr (device_open module_load).2.msg).drop 38).take
        (min 5 ((cstr (device_open module_load).2.msg).length - 38)) ∧
    (device_read (device_open module_load).2 user_zero 0 5 ((38 : Nat) : Int)).ret
      ≤ (BUF_LEN : Int) :=
  ⟨(single_read_postcondition (device_open module_load).2 user_zero 0 5 38 (by decide)).1,
   (single_read_postcondition (device_open module_load).2 user_zero 0 5 38
      (by decide)).2.2.2.2.1 (fun _ _ => rfl),
   (single_read_postcondition (device_open module_load).2 user_zero 0 5 38
      (by decide)).2.2.2.2.2.2 (by decide) (by decide)⟩

/-! ## The meaning of a zero return -/

/-- C10, counterexample. A read with requested length 0 at position 5 of the
first message returns 0 although the byte at the position is not the
terminator, and it leaves the position at 5. -/
theorem zero_length_read_returns_zero :
    (device_read (device_open module_load).2 user_zero 0 0 5).ret = 0 ∧
    (device_read (device_open module_load).2 user_zero 0 0 5).offset = 5 ∧
    msg_at (device_open module_load).2.msg 5 ≠ NUL ∧
    5 < ((cstr (device_open module_load).2.msg).length : Int) := by
  decide

/-- C10, amended. For every message, position and requested length of at
least 1, a `device_read` that returns 0 found the terminator at the position
(no more data in this pass: within the message the position is its length),
set the position to 0 and touched neither user memory nor the device. -/
theorem zero_return_means_end (s : DeviceState) (u : UserMem) (b n : Nat) (off : Int)
    (hn : 0 < n) (hret : (device_read s u b n off).ret = 0) :
    msg_at s.msg off = NUL ∧
    (device_read s u b n off).offset = 0 ∧
    (device_read s u b n off).user = u ∧
    (device_read s u b n off).dev = s ∧
    (0 ≤ off → off ≤ ((cstr s.msg).length : Int) → off = ((cstr s.msg).length : Int)) := by
  obtain ⟨h1, h2⟩ := device_read_ret_zero s u b n off hn hret
  refine ⟨h1, by rw [h2], by rw [h2], by rw [h2], ?_⟩
  intro h0 hle
  by_contra hne
  obtain ⟨k, rfl⟩ : ∃ k : Nat, off = (k : Int) := ⟨off.toNat, by omega⟩
  have hk : k < (cstr s.msg).length := by omega
  exact (msg_at_lt s.msg k hk).2 h1

/-- Witness of `zero_return_means_end`: a read of 5 bytes at position 40 of
the first message. -/
theorem zero_return_means_end_witness :
    msg_at (device_open module_load).2.msg 40 = NUL ∧
    (device_read (device_open module_load).2 user_zero 0 5 40).offset = 0 ∧
    (40 : Int) = ((cstr (device_open module_load).2.msg).length : Int) :=
  ⟨(zero_return_means_end (device_open module_load).2 user_zero 0 5 40
      (by decide) (by decide)).1,
   (zero_return_means_end (device_open module_load).2 user_zero 0 5 40
      (by decide) (by decide)).2.1,
   (zero_return_means_end (device_open module_load).2 user_zero 0 5 40
      (by decide) (by decide)).2.2.2.2 (by decide) (by decide)⟩

/-! ## Faults of `put_user` -/

/-- C11, counterexample. On a destination whose byte 2 cannot be written,
`put_user` reports `-EFAULT` for that byte, yet the read of 5 bytes of the
first message is not aborted: it returns 5, leaves byte 2 as it was and goes
on to store the bytes behind it. -/
theorem read_continues_after_fault :
    (put_user (user_fault_at 2) (msg_at (device_open module_load).2.msg 2) 2).1 = -EFAULT ∧
    (device_read (device_open module_load).2 (user_fault_at 2) 0 5 0).ret = 5 ∧
    (device_read (device_open module_load).2 (user_fault_at 2) 0 5 0).ret ≠ -EFAULT ∧
    (device_read (device_open module_load).2 (user_fault_at 2) 0 5 0).offset = 5 ∧
    (device_read (device_open module_load).2 (user_fault_at 2) 0 5 0).user.mem 2 = NUL ∧
    (device_read (device_open module_load).2 (user_fault_at 2) 0 5 0).user.mem 1 = ' ' ∧
    (device_read (device_open module_load).2 (user_fault_at 2) 0 5 0).user.mem 3 = 'l' := by
  decide

/-- C11, amended. When the copy of byte `j` of a read faults, the value
`put_user` reports is discarded: the read is not aborted, it returns the byte
count `min n (length m - c)` and advances the position by it as without a
fault, never an error; the faulting byte is not stored, and every byte copied
to a writable address, before or after the fault, is delivered. -/
theorem read_discards_fault (s : DeviceState) (u : UserMem) (buffer n c j : Nat)
    (hc : c < (cstr s.msg).length) (hj : j < min n ((cstr s.msg).length - c))
    (hfault : u.ok (buffer + j) = false) :
    (put_user u (msg_at s.msg ((c + j : Nat) : Int)) (buffer + j)).1 = -EFAULT ∧
    (device_read s u buffer n (c : Int)).ret =
      ((min n ((cstr s.msg).length - c) : Nat) : Int) ∧
    (device_read s u buffer n (c : Int)).ret ≠ -EFAULT ∧
    (device_read s u buffer n (c : Int)).offset =
      (c : Int) + ((min n ((cstr s.msg).length - c) : Nat) : Int) ∧
    (device_read s u buffer n (c : Int)).user.mem (buffer + j) = u.mem (buffer + j) ∧
    (∀ i < min n ((cstr s.msg).length - c), u.ok (buffer + i) = true →
      (device_read s u buffer n (c : Int)).user.mem (buffer + i) =
        (cstr s.msg).getD (c + i) NUL) := by
  obtain ⟨h1, h2, -, -, h5⟩ := device_read_before_end s u buffer n c hc
  refine ⟨?_, h1, ?_, h2, ?_, ?_⟩
  · unfold put_user
    simp [hfault]
  · rw [h1]
    unfold EFAULT
    omega
  · rw [h5, if_neg]
    rintro ⟨-, -, hok⟩
    rw [hfault] at hok
    exact Bool.false_ne_true hok
  · intro i hi hok
    rw [h5, if_pos ⟨by omega, by omega, hok⟩]
    congr 1
    omega

/-- Witness of `read_discards_fault`: the read of 5 bytes of the first message
onto a destination whose byte 2 cannot be written. -/
theorem read_discards_fault_witness :
    (device_read (device_open module_load).2 (user_fault_at 2) 0 5 ((0 : Nat) : Int)).ret =
      ((min 5 ((cstr (device_open module_load).2.msg).length - 0) : Nat) : Int) ∧
    (device_read (device_open module_load).2 (user_fault_at 2) 0 5
        ((0 : Nat) : Int)).user.mem (0 + 3) =
      (cstr (device_open module_load).2.msg).getD (0 + 3) NUL :=
  ⟨(read_discards_fault (device_open module_load).2 (user_fault_at 2) 0 5 0 2
      (by decide) (by decide) (by decide)).2.1,
   (read_discards_fault (device_open module_load).2 (user_fault_at 2) 0 5 0 2
      (by decide) (by decide) (by decide)).2.2.2.2.2 3 (by decide) (by decide)⟩

/-! ## A rejected open -/

/-- C12. Failed open is atomic. In every device state in which `already_open`
is `CDEV_EXCLUSIVE_OPEN`, `device_open` returns `-EBUSY` (that is -16) and
leaves the flag, `msg`, the open counter and the module use count, indeed the
whole device state, as they were. -/
theorem failed_open_changes_nothing (s : DeviceState)
    (h : s.already_open = CDEV_EXCLUSIVE_OPEN) :
    (device_open s).1 = -EBUSY ∧
    (device_open s).1 = -16 ∧
    (device_open s).2.already_open = s.already_open ∧
    (device_open s).2.msg = s.msg ∧
    (device_open s).2.counter = s.counter ∧
    (device_open s).2.refcnt = s.refcnt ∧
    (device_open s).2 = s := by
  have hne : s.already_open ≠ CDEV_NOT_USED := by
    rw [h]
    decide
  have hs := device_open_flag_busy s hne
  have hr : (device_open s).1 = -EBUSY := by
    rw [device_open_ret, if_neg hne]
  refine ⟨hr, hr, ?_, ?_, ?_, ?_, hs⟩ <;> rw [hs]

/-- Witness of `failed_open_changes_nothing`: a second open right after the
first one. -/
theorem failed_open_changes_nothing_witness :
    (device_open (device_open module_load).2).1 = -EBUSY ∧
    (device_open (device_open module_load).2).2 = (device_open module_load).2 :=
  ⟨(failed_open_changes_nothing (device_open module_load).2 (by decide)).1,
   (failed_open_changes_nothing (device_open module_load).2 (by decide)).2.2.2.2.2.2⟩

/-! ## The message fits the buffer -/

theorem wrap32_range (x : Int) : -2147483648 ≤ wrap32 x ∧ wrap32 x < 2147483648 := by
  unfold wrap32
  omega

theorem toDigits_length_le (n : Nat) (h : n < 10 ^ 10) : (Nat.toDigits 10 n).length ≤ 10 :=
  Nat.toDigitsCore_length 10 (by decide) (n + 1) n 10 h (by decide)

theorem fmt_d_length (v : Int) (h1 : -2147483648 ≤ v) (h2 : v < 2147483648) :
    (fmt_d v).length ≤ 11 := by
  unfold fmt_d
  split
  · have := toDigits_length_le v.natAbs (by omega)
    simp only [List.length_cons]
    omega
  · have := toDigits_length_le v.toNat (by omega)
    omega

theorem format_msg_length (v : Int) (h1 : -2147483648 ≤ v) (h2 : v < 2147483648) :
    (format_msg v).length ≤ 50 := by
  have h := fmt_d_length v h1 h2
  have ha : "I already told you ".toList.length = 19 := by decide
  have hb : " times Hello world!\n".toList.length = 20 := by decide
  unfold format_msg
  rw [List.length_append, List.length_append, ha, hb]
  omega

theorem sprintf_length (buf text : List Char) (h : text.length < buf.length) :
    (sprintf buf text).length = buf.length := by
  unfold sprintf
  simp only [List.length_append, List.length_cons, List.length_drop]
  omega

theorem sprintf_terminated (buf text : List Char) :
    (sprintf buf text).getD text.length NUL = NUL ∧ NUL ∈ sprintf buf text := by
  unfold sprintf
  constructor
  · rw [List.getD_eq_getElem?_getD, List.getElem?_append_right (le_refl _)]
    simp
  · simp

theorem device_open_state_ok (s : DeviceState) (h : state_ok s) : state_ok (device_open s).2 := by
  by_cases hf : s.already_open = CDEV_NOT_USED
  · obtain ⟨hl, -, h1, h2⟩ := h
    have hm := device_open_msg s hf
    have hcnt := device_open_counter s
    rw [if_pos hf] at hcnt
    have hlen := format_msg_length s.counter h1 h2
    refine ⟨?_, ?_, ?_, ?_⟩
    · rw [hm, sprintf_length _ _ (by rw [hl]; unfold BUF_LEN; omega), hl]
    · rw [hm]
      exact (sprintf_terminated _ _).2
    · rw [hcnt]
      exact (wrap32_range _).1
    · rw [hcnt]
      exact (wrap32_range _).2
  · rw [device_open_flag_busy s hf]
    exact h

theorem run_state_ok (t : List Call) (s : DeviceState) (h : state_ok s) : state_ok (run s t) := by
  induction t generalizing s with
  | nil => exact h
  | cons c t ih =>
    cases c with
    | op_open => exact ih _ (device_open_state_ok s h)
    | op_release => exact ih _ h
    | op_read u b n off =>
      simp only [run, step_read_dev]
      exact ih s h
    | op_write buff n off =>
      simp only [run, step_write_dev]
      exact ih s h

theorem module_load_state_ok : state_ok module_load := by
  refine ⟨rfl, ?_, ?_, ?_⟩
  · decide
  · decide
  · decide

/-- C13. Message fits the buffer. For every value of a 32-bit `int`, negative
ones included, the text formatted by `device_open` has at most 50 bytes, hence
at most `BUF_LEN`; written by `sprintf` into a buffer of `BUF_LEN + 1` bytes it
leaves the size of the buffer unchanged, with the terminator right behind the
text; and in every state reached from the module-load state `msg` has
`BUF_LEN + 1` bytes and holds a terminator, so the string in it has at most
`BUF_LEN` bytes. -/
theorem message_fits_buffer :
    (∀ v : Int, -2147483648 ≤ v → v < 2147483648 →
      (format_msg v).length ≤ 50 ∧
      (format_msg v).length ≤ BUF_LEN ∧
      ∀ buf : List Char, buf.length = BUF_LEN + 1 →
        (sprintf buf (format_msg v)).length = BUF_LEN + 1 ∧
        (sprintf buf (format_msg v)).getD (format_msg v).length NUL = NUL ∧
        cstr (sprintf buf (format_msg v)) = format_msg v) ∧
    (∀ t : List Call,
      (run module_load t).msg.length = BUF_LEN + 1 ∧
      NUL ∈ (run module_load t).msg ∧
      (cstr (run module_load t).msg).length ≤ BUF_LEN ∧
      -2147483648 ≤ (run module_load t).counter ∧
      (run module_load t).counter < 2147483648) := by
  refine ⟨?_, ?_⟩
  · intro v h1 h2
    have hlen := format_msg_length v h1 h2
    refine ⟨hlen, by unfold BUF_LEN; omega, ?_⟩
    intro buf hbuf
    refine ⟨?_, (sprintf_terminated _ _).1, cstr_sprintf _ _ (format_msg_no_NUL v)⟩
    rw [sprintf_length _ _ (by rw [hbuf]; unfold BUF_LEN; omega), hbuf]
  · intro t
    obtain ⟨hl, hn, h1, h2⟩ := run_state_ok t module_load module_load_state_ok
    refine ⟨hl, hn, ?_, h1, h2⟩
    have := cstr_length_lt _ hn
    omega

/-- Witness of `message_fits_buffer`: the most negative `int`, written into the
zeroed buffer of the module-load state. -/
theorem message_fits_buffer_witness :
    (format_msg (-2147483648)).length ≤ BUF_LEN ∧
    (sprintf module_load.msg (format_msg (-2147483648))).length = BUF_LEN + 1 :=
  ⟨(message_fits_buffer.1 (-2147483648) (by decide) (by decide)).2.1,
   ((message_fits_buffer.1 (-2147483648) (by decide) (by decide)).2.2
      module_load.msg (by decide)).1⟩

/-! ## The frame of `msg` -/

theorem run_eq_of_no_release (mid : List Call) (s : DeviceState)
    (hs : s.already_open ≠ CDEV_NOT_USED) (hm : ∀ c ∈ mid, Call.is_release c = false) :
    run s mid = s := by
  induction mid with
  | nil => rfl
  | cons c t ih =>
    have ht : ∀ c ∈ t, Call.is_release c = false := fun d hd => hm d (List.mem_cons_of_mem _ hd)
    have hc := hm c (List.mem_cons_self _ _)
    cases c with
    | op_open =>
      simp only [run, step, device_open_flag_busy s hs]
      exact ih ht
    | op_release => simp [Call.is_release] at hc
    | op_read u b n off =>
      simp only [run, step_read_dev]
      exact ih ht
    | op_write buff n off =>
      simp only [run, step_write_dev]
      exact ih ht

theorem step_frame (s : DeviceState) (c : Call)
    (h : (step s c).2.msg ≠ s.msg ∨ (step s c).2.counter ≠ s.counter) :
    c = Call.op_open ∧ s.already_open = CDEV_NOT_USED := by
  cases c with
  | op_open =>
    refine ⟨rfl, ?_⟩
    by_contra hf
    have hs : (step s Call.op_open).2 = s := device_open_flag_busy s hf
    rw [hs] at h
    rcases h with h | h <;> exact h rfl
  | op_release => rcases h with h | h <;> exact absurd rfl h
  | op_read u b n off =>
    rw [step_read_dev] at h
    rcases h with h | h <;> exact absurd rfl h
  | op_write buff n off => rcases h with h | h <;> exact absurd rfl h

/-- C14. Message frame. A call that changes `msg` or the open counter is a
`device_open` that found `already_open` at `CDEV_NOT_USED`, that is, whose
compare-and-swap succeeded; `device_read`, `device_release`, `device_write`
and a rejected `device_open` leave `msg` and the counter unchanged; and after
a successful open, calls that contain no release leave `msg` and the counter
as that open wrote them. -/
theorem message_frame :
    (∀ (s : DeviceState) (c : Call),
      (step s c).2.msg ≠ s.msg ∨ (step s c).2.counter ≠ s.counter →
        c = Call.op_open ∧ s.already_open = CDEV_NOT_USED ∧ (device_open s).1 = SUCCESS) ∧
    (∀ (s : DeviceState) (u : UserMem) (b n : Nat) (off : Int),
      (device_read s u b n off).dev.msg = s.msg ∧
      (device_read s u b n off).dev.counter = s.counter) ∧
    (∀ s : DeviceState,
      (device_release s).2.msg = s.msg ∧ (device_release s).2.counter = s.counter) ∧
    (∀ (s : DeviceState) (buff : List Char) (len : Nat) (off : Int),
      (device_write s buff len off).2.msg = s.msg ∧
      (device_write s buff len off).2.counter = s.counter) ∧
    (∀ s : DeviceState, s.already_open ≠ CDEV_NOT_USED →
      (device_open s).2.msg = s.msg ∧ (device_open s).2.counter = s.counter) ∧
    (∀ (s : DeviceState) (mid : List Call),
      (device_open s).1 = SUCCESS →
      (∀ c ∈ mid, Call.is_release c = false) →
        (run (device_open s).2 mid).msg = (device_open s).2.msg ∧
        (run (device_open s).2 mid).counter = (device_open s).2.counter) := by
  refine ⟨?_, ?_, fun s => ⟨rfl, rfl⟩, fun s buff len off => ⟨rfl, rfl⟩, ?_, ?_⟩
  · intro s c h
    obtain ⟨h1, h2⟩ := step_frame s c h
    exact ⟨h1, h2, by rw [device_open_ret, if_pos h2]⟩
  · intro s u b n off
    rw [device_read_dev]
    exact ⟨rfl, rfl⟩
  · intro s hs
    rw [device_open_flag_busy s hs]
    exact ⟨rfl, rfl⟩
  · intro s mid hopen hmid
    have hf : s.already_open = CDEV_NOT_USED := by
      by_contra hne
      rw [device_open_ret, if_neg hne] at hopen
      exact absurd hopen (by decide)
    have hbusy : (device_open s).2.already_open ≠ CDEV_NOT_USED := by
      rw [device_open_flag_free _ hf]
      decide
    rw [run_eq_of_no_release mid _ hbusy hmid]
    exact ⟨rfl, rfl⟩

/-- Witness of `message_frame`: the first open changes `msg`; a second open
leaves it; and a session with a rejected open, a read and a write keeps the
message of its open. -/
theorem message_frame_witness :
    (Call.op_open = Call.op_open ∧ module_load.already_open = CDEV_NOT_USED ∧
      (device_open module_load).1 = SUCCESS) ∧
    ((device_open (device_open module_load).2).2.msg = (device_open module_load).2.msg ∧
      (device_open (device_open module_load).2).2.counter =
        (device_open module_load).2.counter) ∧
    ((run (device_open module_load).2
        [Call.op_open, Call.op_read user_zero 0 7 0, Call.op_write [] 3 0]).msg =
        (device_open module_load).2.msg ∧
      (run (device_open module_load).2
        [Call.op_open, Call.op_read user_zero 0 7 0, Call.op_write [] 3 0]).counter =
        (device_open module_load).2.counter) :=
  ⟨message_frame.1 module_load Call.op_open (Or.inl (by decide)),
   message_frame.2.2.2.2.1 (device_open module_load).2 (by decide),
   message_frame.2.2.2.2.2 module_load
     [Call.op_open, Call.op_read user_zero 0 7 0, Call.op_write [] 3 0]
     (by decide) (by decide)⟩

/-! ## The module use count -/

theorem device_open_refcnt (s : DeviceState) :
    (device_open s).2.refcnt =
      if s.already_open = CDEV_NOT_USED then
        (if s.module_live = true then s.refcnt + 1 else s.refcnt)
      else s.refcnt := by
  unfold device_open atomic_cmpxchg try_module_get CDEV_NOT_USED
  by_cases h : s.already_open = 0 <;> by_cases hl : s.module_live = true <;> simp [h, hl]

theorem device_open_live (s : DeviceState) : (device_open s).2.module_live = s.module_live := by
  unfold device_open atomic_cmpxchg CDEV_NOT_USED
  by_cases h : s.already_open = 0 <;> simp [h]

theorem run_live (t : List Call) (s : DeviceState) : (run s t).module_live = s.module_live := by
  induction t generalizing s with
  | nil => rfl
  | cons c t ih =>
    cases c with
    | op_open =>
      simp only [run, step]
      rw [ih, device_open_live]
    | op_release =>
      simp only [run, step]
      rw [ih]
      rfl
    | op_read u b n off =>
      simp only [run, step_read_dev]
      exact ih s
    | op_write buff n off =>
      simp only [run, step_write_dev]
      exact ih s

theorem well_formed_inv (t : List Call) (s : DeviceState) (k : Nat)
    (hlive : s.module_live = true)
    (h : (s.already_open = CDEV_NOT_USED ∧ k = 0 ∧ s.refcnt = 0) ∨
      (s.already_open = CDEV_EXCLUSIVE_OPEN ∧ k = 1 ∧ s.refcnt = 1))
    (hwf : well_formed s k t = true) :
    ((run s t).already_open = CDEV_NOT_USED ∧ open_sessions s k t = 0 ∧
        (run s t).refcnt = 0) ∨
      ((run s t).already_open = CDEV_EXCLUSIVE_OPEN ∧ open_sessions s k t = 1 ∧
        (run s t).refcnt = 1) := by
  induction t generalizing s k with
  | nil => exact h
  | cons c t ih =>
    cases c with
    | op_open =>
      simp only [well_formed] at hwf
      simp only [run, step, open_sessions]
      refine ih _ _ (by rw [device_open_live, hlive]) ?_ hwf
      rcases h with ⟨hf, hk, hr⟩ | ⟨hf, hk, hr⟩
      · refine Or.inr ⟨device_open_flag_free s hf, ?_, ?_⟩
        · rw [device_open_ret, if_pos hf, if_pos rfl, hk]
        · rw [device_open_refcnt, if_pos hf, if_pos hlive, hr]
      · have hne : s.already_open ≠ CDEV_NOT_USED := by
          rw [hf]
          decide
        refine Or.inr ⟨?_, ?_, ?_⟩
        · rw [device_open_flag_busy s hne, hf]
        · rw [device_open_ret, if_neg hne, if_neg (by decide), hk]
        · rw [device_open_flag_busy s hne, hr]
    | op_release =>
      simp only [well_formed, Bool.and_eq_true, decide_eq_true_eq] at hwf
      simp only [run, step, open_sessions]
      refine ih _ _ hlive ?_ hwf.2
      rcases h with ⟨-, hk, -⟩ | ⟨-, hk, hr⟩
      · omega
      · exact Or.inl ⟨rfl, by omega, by simp [device_release, hr]⟩
    | op_read u b n off =>
      simp only [well_formed, step_read_dev] at hwf
      simp only [run, open_sessions, step_read_dev]
      exact ih s k hlive h hwf
    | op_write buff n off =>
      simp only [well_formed, step_write_dev] at hwf
      simp only [run, open_sessions, step_write_dev]
      exact ih s k hlive h hwf

theorem step_refcnt (s : DeviceState) (c : Call) :
    (s.refcnt < (step s c).2.refcnt →
      c = Call.op_open ∧ (device_open s).1 = SUCCESS ∧
        (step s c).2.refcnt = s.refcnt + 1) ∧
    ((step s c).2.refcnt < s.refcnt → c = Call.op_release) := by
  cases c with
  | op_open =>
    have hr := device_open_refcnt s
    refine ⟨fun h => ?_, fun h => ?_⟩
    · simp only [step] at h
      by_cases hf : s.already_open = CDEV_NOT_USED
      · rw [if_pos hf] at hr
        refine ⟨rfl, by rw [device_open_ret, if_pos hf], ?_⟩
        show (device_open s).2.refcnt = s.refcnt + 1
        split at hr <;> omega
      · rw [if_neg hf] at hr
        omega
    · simp only [step] at h
      split at hr
      · split at hr <;> omega
      · omega
  | op_release =>
    refine ⟨fun h => ?_, fun _ => rfl⟩
    simp only [step, device_release] at h
    omega
  | op_read u b n off =>
    rw [step_read_dev]
    exact ⟨fun h => absurd h (lt_irrefl _), fun h => absurd h (lt_irrefl _)⟩
  | op_write buff n off =>
    rw [step_write_dev]
    exact ⟨fun h => absurd h (lt_irrefl _), fun h => absurd h (lt_irrefl _)⟩

/-- C15, the failing input. When the removal of the module has begun
`try_module_get` takes no reference, and `device_open` discards what it
yields: the open still returns `SUCCESS` and sets `already_open` to
`CDEV_EXCLUSIVE_OPEN`, one session is open, and the use count of the module
is still 0, not 1. The trace is well formed, and the same open on the live
module of the module-load state leaves the use count at 1. -/
theorem open_while_going_takes_no_reference :
    (try_module_get module_going.module_live module_going.refcnt).1 = false ∧
    well_formed module_going 0 [Call.op_open] = true ∧
    (device_open module_going).1 = SUCCESS ∧
    (run module_going [Call.op_open]).already_open = CDEV_EXCLUSIVE_OPEN ∧
    open_sessions module_going 0 [Call.op_open] = 1 ∧
    (run module_going [Call.op_open]).refcnt = 0 ∧
    (run module_load [Call.op_open]).refcnt = 1 := by
  decide

/-- Use-count balance while the module is live. From a state in which the
device is free, the module is not held and the module is live, after every
well-formed trace the flag is `CDEV_NOT_USED` or `CDEV_EXCLUSIVE_OPEN`, and
the use count of the module is 1 in the second case and 0 in the first; it
equals the number of open sessions, so it is positive whenever a session is
open; a call that raises it is a successful `device_open`, which raises it by
one, and a call that lowers it is a `device_release`. -/
theorem use_count_balance_while_live (s₀ : DeviceState) (t : List Call)
    (hfree : s₀.already_open = CDEV_NOT_USED) (hcnt : s₀.refcnt = 0)
    (hlive : s₀.module_live = true) (hwf : well_formed s₀ 0 t = true) :
    ((run s₀ t).already_open = CDEV_NOT_USED ∨
      (run s₀ t).already_open = CDEV_EXCLUSIVE_OPEN) ∧
    ((run s₀ t).already_open = CDEV_EXCLUSIVE_OPEN → (run s₀ t).refcnt = 1) ∧
    ((run s₀ t).already_open = CDEV_NOT_USED → (run s₀ t).refcnt = 0) ∧
    (run s₀ t).refcnt = open_sessions s₀ 0 t ∧
    (0 < open_sessions s₀ 0 t → 0 < (run s₀ t).refcnt) ∧
    (∀ c : Call, (run s₀ t).refcnt < (step (run s₀ t) c).2.refcnt →
      c = Call.op_open ∧ (device_open (run s₀ t)).1 = SUCCESS ∧
        (step (run s₀ t) c).2.refcnt = (run s₀ t).refcnt + 1) ∧
    (∀ c : Call, (step (run s₀ t) c).2.refcnt < (run s₀ t).refcnt →
      c = Call.op_release) := by
  have hinv := well_formed_inv t s₀ 0 hlive (Or.inl ⟨hfree, rfl, hcnt⟩) hwf
  have hne : CDEV_EXCLUSIVE_OPEN ≠ CDEV_NOT_USED := by decide
  refine ⟨?_, ?_, ?_, ?_, ?_, fun c => (step_refcnt _ c).1, fun c => (step_refcnt _ c).2⟩
  · rcases hinv with ⟨hf, -, -⟩ | ⟨hf, -, -⟩
    · exact Or.inl hf
    · exact Or.inr hf
  · intro hx
    rcases hinv with ⟨hf, -, -⟩ | ⟨-, -, hr⟩
    · rw [hf] at hx
      exact absurd hx.symm hne
    · exact hr
  · intro hx
    rcases hinv with ⟨-, -, hr⟩ | ⟨hf, -, -⟩
    · exact hr
    · rw [hf] at hx
      exact absurd hx hne
  · rcases hinv with ⟨-, hk, hr⟩ | ⟨-, hk, hr⟩ <;> rw [hk, hr]
  · intro hpos
    rcases hinv with ⟨-, hk, -⟩ | ⟨-, -, hr⟩
    · omega
    · omega

/-- An instance of `use_count_balance_while_live`: from the module-load state,
open, a rejected open, a read, release, open; the device is open and the
module is held once. -/
theorem use_count_balance_while_live_instance :
    (run module_load [Call.op_open, Call.op_open, Call.op_read user_zero 0 7 0,
      Call.op_release, Call.op_open]).refcnt = 1 ∧
    0 < (run module_load [Call.op_open, Call.op_open, Call.op_read user_zero 0 7 0,
      Call.op_release, Call.op_open]).refcnt ∧
    Call.op_release = Call.op_release :=
  ⟨(use_count_balance_while_live module_load
      [Call.op_open, Call.op_open, Call.op_read user_zero 0 7 0,
        Call.op_release, Call.op_open]
      (by decide) (by decide) (by decide) (by decide)).2.1 (by decide),
   (use_count_balance_while_live module_load
      [Call.op_open, Call.op_open, Call.op_read user_zero 0 7 0,
        Call.op_release, Call.op_open]
      (by decide) (by decide) (by decide) (by decide)).2.2.2.2.1 (by decide),
   (use_count_balance_while_live module_load
      [Call.op_open, Call.op_open, Call.op_read user_zero 0 7 0,
        Call.op_release, Call.op_open]
      (by decide) (by decide) (by decide) (by decide)).2.2.2.2.2.2 Call.op_release (by decide)⟩

/-! ## The module-load state -/

/-- C16. Initial state. At module load `already_open` is `CDEV_NOT_USED`, the
open counter is 0, every byte of `msg` is the terminator, so the string in it
is empty, and the module is not held; the first `device_open` succeeds; and a
`device_read` of the load-state message at position 0 returns 0 bytes, for
every destination and length, leaving the position at 0 and user memory
untouched. -/
theorem initial_state :
    module_load.already_open = CDEV_NOT_USED ∧
    module_load.counter = 0 ∧
    module_load.msg.length = BUF_LEN + 1 ∧
    (∀ c ∈ module_load.msg, c = NUL) ∧
    cstr module_load.msg = [] ∧
    module_load.refcnt = 0 ∧
    (device_open module_load).1 = SUCCESS ∧
    (device_open module_load).2.already_open = CDEV_EXCLUSIVE_OPEN ∧
    (∀ (u : UserMem) (b n : Nat),
      (device_read module_load u b n 0).ret = 0 ∧
      (device_read module_load u b n 0).offset = 0 ∧
      (device_read module_load u b n 0).user = u ∧
      (device_read module_load u b n 0).dev = module_load) := by
  refine ⟨rfl, rfl, rfl, by decide, by decide, rfl, by decide, by decide, ?_⟩
  intro u b n
  have h0 : msg_at module_load.msg 0 = NUL := by decide
  have hr : device_read module_load u b n 0 =
      { ret := 0, offset := 0, user := u, dev := module_load } := by
    unfold device_read
    rw [if_pos h0]
  rw [hr]
  exact ⟨rfl, rfl, rfl, rfl⟩

/-! ## The cursor stays inside `msg` -/

theorem msg_at_checked_eq (msg : List Char) (i : Nat) (h : i < msg.length) :
    msg_at_checked msg (i : Int) = some (msg_at msg (i : Int)) := by
  unfold msg_at_checked
  rw [if_pos ⟨by omega, by omega⟩, msg_at_natCast, Int.toNat_ofNat,
    List.getElem?_eq_getElem h, List.getD_eq_getElem _ _ h]

theorem read_loop_checked_eq (msg : List Char) (n p b br : Nat) (u : UserMem)
    (hp : p ≤ (cstr msg).length) (hl : (cstr msg).length < msg.length) :
    read_loop_checked msg n (p : Int) b br u = some (read_loop msg n (p : Int) b br u) := by
  induction n generalizing p b br u with
  | zero => rfl
  | succ n ih =>
    rw [read_loop_checked, read_loop, msg_at_checked_eq msg p (by omega)]
    by_cases hne : msg_at msg (p : Int) ≠ NUL
    · have hlt : p < (cstr msg).length := by
        by_contra hge
        have hpe : p = (cstr msg).length := by omega
        rw [hpe] at hne
        exact hne (msg_at_length msg)
      have hrec := ih (p + 1) (b + 1) (br + 1) (put_user u (msg_at msg (p : Int)) b).2 hlt
      push_cast at hrec
      rw [if_pos hne]
      show (if msg_at msg (p : Int) ≠ NUL then
          read_loop_checked msg n ((p : Int) + 1) (b + 1) (br + 1)
            (put_user u (msg_at msg (p : Int)) b).2
        else some (br, u)) = _
      rw [if_pos hne]
      exact hrec
    · rw [if_neg hne]
      show (if msg_at msg (p : Int) ≠ NUL then
          read_loop_checked msg n ((p : Int) + 1) (b + 1) (br + 1)
            (put_user u (msg_at msg (p : Int)) b).2
        else some (br, u)) = _
      rw [if_neg hne]

theorem device_read_checked_eq (s : DeviceState) (u : UserMem) (b n c : Nat)
    (hc : c ≤ (cstr s.msg).length) (hl : (cstr s.msg).length < s.msg.length) :
    device_read_checked s u b n (c : Int) = some (device_read s u b n (c : Int)) := by
  unfold device_read_checked device_read
  rw [msg_at_checked_eq s.msg c (by omega)]
  by_cases h0 : msg_at s.msg (c : Int) = NUL
  · simp only [h0, if_true]
  · simp only [h0, if_false, read_loop_checked_eq s.msg n c b 0 u hc hl, Option.map_some']

theorem device_read_offset_le (s : DeviceState) (u : UserMem) (b n c : Nat)
    (hc : c ≤ (cstr s.msg).length) :
    ∃ c' : Nat, (device_read s u b n (c : Int)).offset = (c' : Int) ∧
      c' ≤ (cstr s.msg).length := by
  rcases Nat.lt_or_ge c (cstr s.msg).length with hlt | hge
  · obtain ⟨-, h2, -⟩ := device_read_before_end s u b n c hlt
    exact ⟨c + min n ((cstr s.msg).length - c), by rw [h2]; push_cast; rfl, by omega⟩
  · have hce : c = (cstr s.msg).length := le_antisymm hc hge
    refine ⟨0, ?_, Nat.zero_le _⟩
    rw [hce, device_read_at_end]
    rfl

theorem cursor_after_le (s : DeviceState) (reads : List (UserMem × Nat × Nat)) (c : Nat)
    (hc : c ≤ (cstr s.msg).length) :
    ∃ c' : Nat, cursor_after s (c : Int) reads = (c' : Int) ∧ c' ≤ (cstr s.msg).length := by
  induction reads generalizing c with
  | nil => exact ⟨c, rfl, hc⟩
  | cons r rest ih =>
    obtain ⟨u, b, n⟩ := r
    obtain ⟨c₁, h1, h2⟩ := device_read_offset_le s u b n c hc
    simp only [cursor_after, h1]
    exact ih c₁ h2

/-- C17. Cursor bound invariant. In every device state reached from the
module-load state, after any sequence of `device_read` calls of a session
that starts at position 0, with arbitrary lengths and destinations, the
position satisfies `0 ≤ cursor ≤ length of the message ≤ BUF_LEN` and lies
inside the `BUF_LEN + 1` bytes of `msg`; the next `device_read`, with every
read of `msg` bounds-checked, never leaves the array and yields what the
unchecked operation yields. A position outside the array does make the
checked operation fail. -/
theorem cursor_bound_invariant (t : List Call) (reads : List (UserMem × Nat × Nat)) :
    0 ≤ cursor_after (run module_load t) 0 reads ∧
    cursor_after (run module_load t) 0 reads ≤ ((cstr (run module_load t).msg).length : Int) ∧
    (cstr (run module_load t).msg).length ≤ BUF_LEN ∧
    (run module_load t).msg.length = BUF_LEN + 1 ∧
    cursor_after (run module_load t) 0 reads < ((run module_load t).msg.length : Int) ∧
    (∀ (u : UserMem) (b n : Nat),
      device_read_checked (run module_load t) u b n
          (cursor_after (run module_load t) 0 reads) =
        some (device_read (run module_load t) u b n
          (cursor_after (run module_load t) 0 reads))) ∧
    (device_read_checked (device_open module_load).2 user_zero 0 1 81).isNone = true := by
  obtain ⟨hl, hn, -, -⟩ := run_state_ok t module_load module_load_state_ok
  have hlt := cstr_length_lt _ hn
  obtain ⟨c, hc, hle⟩ := cursor_after_le (run module_load t) reads 0 (Nat.zero_le _)
  have hc0 : cursor_after (run module_load t) 0 reads = (c : Int) := by simpa using hc
  rw [hc0]
  refine ⟨by omega, by omega, by omega, hl, by omega, ?_, by decide⟩
  intro u b n
  exact device_read_checked_eq _ u b n c hle hlt

end Chardev
